import Mathlib

/-!
Verification development for the `ripples` impact tracer.

The definitions below are a shallow embedding of the Go sources:
  * the string helpers mirror the `strings`/`path/filepath` functions the
    tracer uses (`strings.Split`, `strings.HasPrefix`, `strings.TrimPrefix`,
    `strings.Contains`, `strings.Join`, `filepath.Dir`, `filepath.Base`);
  * `isCommonPackage`, `extractServiceName`, `extractPackageFromURI`,
    `isCrossServiceCall`, `isMainFunction`, `getBinaryName` and the
    traversal come from the `CallChainTracer` in `internal/lsp`;
  * the aggregation (`Analyze` collection loop) comes from
    `internal/analyzer/lsp_analyzer.go`;
  * the import-reachability tracer and the two-tier cache are modelled from
    the specification, because their Go code lives in the gopls fork
    (`gopls/internal/ripplesapi`) which is not part of this repository's
    tree; those definitions carry a `Modelled from the spec:` doc comment.

All functions are structurally recursive (string recursion is driven by an
explicit character-count fuel), so every concrete claim can be settled by
kernel evaluation.
-/

namespace Ripples

/-- Go `strings.HasPrefix s pre`: true when `pre` is a prefix of `s`. -/
def strStarts (s pre : String) : Bool :=
  pre.data.isPrefixOf s.data

/-- Go `strings.TrimPrefix s pre`: drop the leading `pre` when present. -/
def strDropPre (s pre : String) : String :=
  if strStarts s pre then ⟨s.data.drop pre.data.length⟩ else s

/-- Character-level worker for `strSplit`.  The first argument is fuel
(one unit per input character suffices); `acc` holds the current chunk in
reverse.  Matches Go `strings.Split` for a non-empty separator. -/
def strSplitGo (sep : List Char) : Nat → List Char → List Char → List (List Char)
  | 0, rest, acc => [acc.reverse ++ rest]
  | _ + 1, [], acc => [acc.reverse]
  | n + 1, c :: cs, acc =>
    if sep ≠ [] ∧ sep.isPrefixOf (c :: cs) then
      acc.reverse :: strSplitGo sep n ((c :: cs).drop sep.length) []
    else
      strSplitGo sep n cs (c :: acc)

/-- Go `strings.Split s sep` (for the non-empty separators the tracer uses). -/
def strSplit (s sep : String) : List String :=
  (strSplitGo sep.data s.data.length s.data []).map (fun l => ⟨l⟩)

/-- Go `strings.Contains s sub`: `strings.Split` yields more than one part
exactly when the (non-empty) separator occurs in `s`. -/
def strContains (s sub : String) : Bool :=
  decide (1 < (strSplit s sub).length)

/-- Go `strings.Join parts sep`. -/
def strJoin (sep : String) (parts : List String) : String :=
  ⟨List.intercalate sep.data (parts.map String.data)⟩

/-- Go `filepath.Dir` on the clean, slash-separated paths the tracer feeds
it (no trailing slash): everything before the last separator. -/
def goDir (path : String) : String :=
  let parts := strSplit path "/"
  if parts.length ≤ 1 then "." else strJoin "/" parts.dropLast

/-- Go `filepath.Base` on the clean paths the tracer feeds it: the last
path segment. -/
def goBase (path : String) : String :=
  if path = "" then "." else ((strSplit path "/").getLastD path)

/-- `commonPrefixes` from the `CallChainTracer` (`isCommonPackage`). -/
def commonPrefixes : List String :=
  ["pkg/", "api/", "common/", "shared/", "lib/"]

/-- `isCommonPackage` (CallChainTracer): a package is common/shared when its
path starts with one of the recognized shared roots. -/
def isCommonPackage (pkgPath : String) : Bool :=
  commonPrefixes.any (fun pre => strStarts pkgPath pre)

/-- `extractServiceName` (CallChainTracer): `cmd/servicename -> servicename`,
`internal/servicename/... -> servicename`, otherwise `""`.  The Go function
returns `parts[1]` under a length guard inside each `HasPrefix` branch and
falls through to the next check otherwise; with a `cmd/` or `internal/`
prefix the split always has at least two parts, so the flattened
conditionals below follow the same control flow. -/
def extractServiceName (pkgPath : String) : String :=
  if strStarts pkgPath "cmd/" ∧ 2 ≤ (strSplit pkgPath "/").length then
    (strSplit pkgPath "/").getD 1 ""
  else if strStarts pkgPath "internal/" ∧ 2 ≤ (strSplit pkgPath "/").length then
    (strSplit pkgPath "/").getD 1 ""
  else
    ""

/-- Scan for the first standard Go directory segment, mirroring the loop in
`extractPackageFromURI`: on the first part equal to `internal`, `cmd`,
`pkg` or `api`, join the remaining parts. -/
def pkgFromParts : List String → Option String
  | [] => none
  | p :: rest =>
    if p = "internal" ∨ p = "cmd" ∨ p = "pkg" ∨ p = "api" then
      some (strJoin "/" (p :: rest))
    else
      pkgFromParts rest

/-- `extractPackageFromURI` (CallChainTracer): strip `file://`, take the
directory, and return the package path starting at the first standard Go
directory segment; fall back to the directory's base name. -/
def extractPackageFromURI (uri : String) : String :=
  if strStarts uri "file://" then
    let filePath := strDropPre uri "file://"
    let dir := goDir filePath
    match pkgFromParts (strSplit dir "/") with
    | some pkg => pkg
    | none => goBase dir
  else
    ""

/-- `CallNode` (internal/lsp): one hop of a discovered call path. -/
structure CallNode where
  functionName : String
  packagePath : String
deriving DecidableEq

/-- `CallPath` (internal/lsp): a path from the changed symbol to a main. -/
structure CallPath where
  binaryName : String
  mainURI : String
  path : List CallNode
deriving DecidableEq

/-- `isCrossServiceCall` (CallChainTracer): a caller edge crosses service
boundaries when some node already on the path belongs to a different,
non-common service than the caller. -/
def isCrossServiceCall (callerPkg : String) (currentPath : List CallNode) : Bool :=
  if currentPath.isEmpty then false
  else
    let callerService := extractServiceName callerPkg
    currentPath.any (fun node =>
      let nodeService := extractServiceName node.packagePath
      callerService ≠ "" ∧ nodeService ≠ "" ∧ callerService ≠ nodeService ∧
        ¬ (isCommonPackage node.packagePath = true))

/-- The fields of `CallHierarchyItem` the tracer reads: name, URI and the
start of `Range`. -/
structure CHItem where
  name : String
  uri : String
  line : Nat
  character : Nat
deriving DecidableEq

/-- `isMainFunction` (CallChainTracer): named `main`, with a `file://` URI
whose directory lies under `cmd/` or is itself named `main`. -/
def isMainFunction (item : CHItem) : Bool :=
  if item.name ≠ "main" then false
  else if ¬ (strStarts item.uri "file://" = true) then false
  else
    let dir := goDir (strDropPre item.uri "file://")
    strContains dir "/cmd/" ∨ goBase dir = "main"

/-- `GetBinaryName` (CallChainTracer): the directory segment after `/cmd/`,
else the base directory name. -/
def getBinaryName (item : CHItem) : String :=
  if ¬ (strStarts item.uri "file://" = true) then "unknown"
  else
    let dir := goDir (strDropPre item.uri "file://")
    let parts := strSplit dir "/cmd/"
    if parts.length = 2 then goBase (parts.getD 1 "") else goBase dir

/-- The visited-set key of `traceIncomingCalls`: Go formats
`"uri:line:character"`; the triple carries exactly the same information. -/
structure ItemKey where
  uri : String
  line : Nat
  character : Nat
deriving DecidableEq

/-- `itemKey` for a call-hierarchy item (declaration file plus position). -/
def itemKey (item : CHItem) : ItemKey :=
  { uri := item.uri, line := item.line, character := item.character }

/-- The state threaded through one top-level trace: `visited` (newest key
first), the collected `paths`, and the per-trace `seenBinaries` set. -/
structure TraceState where
  visited : List ItemKey
  paths : List CallPath
  seenBinaries : List String
deriving DecidableEq

/-- The caller entries `traceIncomingCalls` recurses into for `item`: each
incoming call that survives `isCrossServiceCall`, paired with the extended
path `callerNode :: currentPath`.  `g` is the provider's incoming-call
relation (`client.IncomingCalls`); a query error is logged as a warning in
Go and behaves exactly like an empty caller list. -/
def callerEntries (g : CHItem → List CHItem) (item : CHItem)
    (currentPath : List CallNode) : List (CHItem × List CallNode) :=
  (g item).filterMap (fun call =>
    if isCrossServiceCall (extractPackageFromURI call.uri) currentPath then none
    else some (call,
      ({ functionName := call.name,
         packagePath := extractPackageFromURI call.uri } : CallNode) :: currentPath))

/-- `traceIncomingCalls` (CallChainTracer), with the Go recursion rendered
as an explicit pending stack so that the function is structurally
recursive on a fuel counter: popping `(item, currentPath)` performs the
body of one Go call (visited guard, main check with binary dedup and path
emission, otherwise push the surviving caller edges), and the pushed
entries are processed depth-first before the rest, exactly as the Go
recursion interleaves state updates.  `none` means the fuel ran out. -/
def traceIncomingCalls (g : CHItem → List CHItem) :
    Nat → List (CHItem × List CallNode) → TraceState → Option TraceState
  | 0, _, _ => none
  | _ + 1, [], st => some st
  | fuel + 1, (item, currentPath) :: pending, st =>
    if itemKey item ∈ st.visited then
      traceIncomingCalls g fuel pending st
    else
      let st1 : TraceState := { st with visited := itemKey item :: st.visited }
      if isMainFunction item then
        let binaryName := getBinaryName item
        if binaryName ∈ st1.seenBinaries then
          traceIncomingCalls g fuel pending st1
        else
          traceIncomingCalls g fuel pending
            { st1 with
              seenBinaries := binaryName :: st1.seenBinaries,
              paths := st1.paths ++
                [{ binaryName := binaryName, mainURI := item.uri, path := currentPath }] }
      else
        traceIncomingCalls g fuel (callerEntries g item currentPath ++ pending) st1

/-- `TraceToMain` (CallChainTracer), from the point where the provider has
resolved the symbol to its call-hierarchy items: every item starts with the
one-node path `[initialNode]`, and the whole run shares one `visited`,
`paths` and `seenBinaries` (the Go loop threads the same maps through each
item's trace). -/
def traceToMain (g : CHItem → List CHItem) (fuel : Nat)
    (items : List CHItem) : Option (List CallPath) :=
  (traceIncomingCalls g fuel
      (items.map (fun item =>
        (item, [({ functionName := item.name,
                   packagePath := extractPackageFromURI item.uri } : CallNode)])))
      { visited := [], paths := [], seenBinaries := [] }).map TraceState.paths

/-! ### The `shared-package-test` call graph

The call graph of `testdata/shared-package-test` as gopls reports it
(interface dispatch makes `pkg/common.RunServer` the caller of both
services' `Run` methods, and both mains the callers of `RunServer`). -/

/-- `pkg/common.LogMessage` — the shared standalone helper. -/
def lmItem : CHItem := { name := "LogMessage", uri := "file:///r/pkg/common/l.go", line := 29, character := 5 }

/-- `pkg/common.LogMessageWithPrefix` — calls `LogMessage` internally. -/
def lmwpItem : CHItem := { name := "LogMessageWithPrefix", uri := "file:///r/pkg/common/l.go", line := 34, character := 5 }

/-- `pkg/common.RunServer` — the shared dispatch helper over `Runner`. -/
def rsItem : CHItem := { name := "RunServer", uri := "file:///r/pkg/common/l.go", line := 45, character := 5 }

/-- `internal/service-a.(*Handler).ProcessRequest`. -/
def praItem : CHItem := { name := "ProcessRequest", uri := "file:///r/internal/service-a/h.go", line := 18, character := 20 }

/-- `internal/service-a.(*Server).internalServiceLogic`. -/
def islaItem : CHItem := { name := "internalServiceLogic", uri := "file:///r/internal/service-a/h.go", line := 45, character := 17 }

/-- `internal/service-a.(*Server).Run` — implements `common.Runner`. -/
def runaItem : CHItem := { name := "Run", uri := "file:///r/internal/service-a/h.go", line := 39, character := 16 }

/-- `internal/service-b.(*Handler).ProcessRequest`. -/
def prbItem : CHItem := { name := "ProcessRequest", uri := "file:///r/internal/service-b/h.go", line := 18, character := 20 }

/-- `internal/service-b.(*Server).internalServiceLogic`. -/
def islbItem : CHItem := { name := "internalServiceLogic", uri := "file:///r/internal/service-b/h.go", line := 45, character := 17 }

/-- `internal/service-b.(*Server).Run` — implements `common.Runner`. -/
def runbItem : CHItem := { name := "Run", uri := "file:///r/internal/service-b/h.go", line := 39, character := 16 }

/-- `cmd/service-a.main`. -/
def mainaItem : CHItem := { name := "main", uri := "file:///r/cmd/service-a/main.go", line := 8, character := 5 }

/-- `cmd/service-b.main`. -/
def mainbItem : CHItem := { name := "main", uri := "file:///r/cmd/service-b/main.go", line := 8, character := 5 }

/-- Incoming-call relation of `shared-package-test` as gopls answers it:
both services' handlers and the shared wrapper call `LogMessage`; each
main calls its own handler directly and `RunServer` through the shared
`Runner` interface, so gopls reports `RunServer` as the caller of *both*
`Run` implementations and both mains as callers of `RunServer`. -/
def sharedIncoming (item : CHItem) : List CHItem :=
  if item = lmItem then [praItem, prbItem, lmwpItem]
  else if item = praItem then [islaItem, mainaItem]
  else if item = islaItem then [runaItem]
  else if item = runaItem then [rsItem]
  else if item = rsItem then [mainaItem, mainbItem]
  else if item = prbItem then [islbItem, mainbItem]
  else if item = islbItem then [runbItem]
  else if item = runbItem then [rsItem]
  else []

/-! ### A shared function reached through another service's private package

A legal Go layout on which the upward filter prunes a main that does call
the shared function transitively: `pkg/common.SharedHelper` is called by
`internal/service-a.Glue` and directly by `cmd/service-a.main`;
`pkg/common.Wrap` calls `Glue`, and `cmd/service-b.main` calls `Wrap`. -/

/-- `pkg/common.SharedHelper` — the changed shared function. -/
def shItem : CHItem := { name := "SharedHelper", uri := "file:///r/pkg/common/l.go", line := 10, character := 5 }

/-- `internal/service-a.Glue` — service-a private code calling `SharedHelper`. -/
def glueItem : CHItem := { name := "Glue", uri := "file:///r/internal/service-a/h.go", line := 5, character := 5 }

/-- `pkg/common.Wrap` — shared code calling back into `Glue`. -/
def wrapItem : CHItem := { name := "Wrap", uri := "file:///r/pkg/common/l.go", line := 20, character := 5 }

/-- `cmd/service-a.main` for the round-trip graph. -/
def mainaRt : CHItem := { name := "main", uri := "file:///r/cmd/service-a/main.go", line := 3, character := 5 }

/-- `cmd/service-b.main` for the round-trip graph. -/
def mainbRt : CHItem := { name := "main", uri := "file:///r/cmd/service-b/main.go", line := 3, character := 5 }

/-- Incoming-call relation of the round-trip layout:
`main-b -> Wrap -> Glue -> SharedHelper` and `main-a -> SharedHelper`. -/
def roundTripIncoming (item : CHItem) : List CHItem :=
  if item = shItem then [glueItem, mainaRt]
  else if item = glueItem then [wrapItem]
  else if item = wrapItem then [mainbRt]
  else []

/-! ### Symbol model and the `Analyze` aggregation
(`internal/parser`, `internal/analyzer/lsp_analyzer.go`) -/

/-- `parser.SymbolKind` (a string enum in Go). -/
inductive SymKind where
  | Package | File | Import | Constant | Variable | Type | TypeAlias
  | Struct | StructField | Interface | Function | Init
deriving DecidableEq

/-- The Go string value of a `parser.SymbolKind` (used in error messages). -/
def symKindStr : SymKind → String
  | .Package => "Package"
  | .File => "File"
  | .Import => "Import"
  | .Constant => "Constant"
  | .Variable => "Variable"
  | .Type => "Type"
  | .TypeAlias => "TypeAlias"
  | .Struct => "Struct"
  | .StructField => "StructField"
  | .Interface => "Interface"
  | .Function => "Function"
  | .Init => "Init"

/-- `parser.ImportExtra`: alias and path of an import declaration. -/
structure ImportExtra where
  importAs : String
  path : String
deriving DecidableEq

/-- `ImportExtra.IsBlankImport`: the alias is the blank identifier. -/
def ImportExtra.isBlankImport (i : ImportExtra) : Bool :=
  i.importAs = "_"

/-- The fields of `parser.Symbol` the tracer dispatch reads.  `Extra` is
`any` in Go and is type-asserted to `ImportExtra` only for import symbols,
so it is modelled as an optional `ImportExtra`. -/
structure GoSymbol where
  name : String
  kind : SymKind
  posFile : String
  posLine : Nat
  posColumn : Nat
  packagePath : String
  extra : Option ImportExtra
deriving DecidableEq

/-- `analyzer.ChangedSymbol` (fields the aggregation reads). -/
structure ChangedSymbol where
  symbol : GoSymbol
deriving DecidableEq

/-- `isSupportedSymbolKind` (lsp_analyzer.go). -/
def isSupportedSymbolKind : SymKind → Bool
  | .Function | .Constant | .Variable | .Init | .Import => true
  | _ => false

/-- `analyzer.AffectedBinary`. -/
structure AffectedBinary where
  name : String
  pkgPath : String
  tracePath : List String
deriving DecidableEq

/-- `extractPkgPath` (lsp_analyzer.go) — the Go function returns the URI
unchanged (a marked TODO in the source). -/
def extractPkgPath (uri : String) : String := uri

/-- One node of the formatted trace (lsp_analyzer.go lines 110-126):
`pkg.fn` when the node has a package path, else the bare function name. -/
def formatNode (node : CallNode) : String :=
  if node.packagePath ≠ "" then node.packagePath ++ "." ++ node.functionName
  else node.functionName

/-- The formatted trace-path strings of one `CallPath` (lsp_analyzer.go):
the first node is suffixed ` (main)`, the last ` (Changed)`. -/
def formatTracePath (path : List CallNode) : List String :=
  path.enum.map (fun e =>
    if e.1 = 0 then formatNode e.2 ++ " (main)"
    else if e.1 = path.length - 1 then formatNode e.2 ++ " (Changed)"
    else formatNode e.2)

/-- The `AffectedBinary` built for one deduplicated `CallPath`. -/
def mkAffected (p : CallPath) : AffectedBinary :=
  { name := p.binaryName,
    pkgPath := extractPkgPath p.mainURI,
    tracePath := formatTracePath p.path }

/-- One per-symbol trace outcome as sent over the results channel:
`traceResult{paths, err}` where a non-nil error suppresses the paths. -/
abbrev TraceResult : Type := Except String (List CallPath)

/-- The inner loop of `Analyze`'s collector over one result's `paths`:
append each path's binary unless its name was already seen. -/
def collectPaths : List CallPath → List String → List AffectedBinary →
    List String × List AffectedBinary
  | [], seen, acc => (seen, acc)
  | p :: ps, seen, acc =>
    if p.binaryName ∈ seen then collectPaths ps seen acc
    else collectPaths ps (p.binaryName :: seen) (acc ++ [mkAffected p])

/-- The collector loop of `Analyze` (lsp_analyzer.go lines 93-134): drain
the per-symbol results in arrival order; an errored result prints a
warning and contributes nothing; a successful result's paths are
deduplicated by binary name against the shared `seenBinaries` set. -/
def collectLoop : List TraceResult → List String → List AffectedBinary →
    List String → List AffectedBinary × List String
  | [], _, acc, warns => (acc, warns)
  | Except.error e :: rest, seen, acc, warns =>
    collectLoop rest seen acc (warns ++ ["Warning: failed to trace symbol: " ++ e])
  | Except.ok paths :: rest, seen, acc, warns =>
    let s := collectPaths paths seen acc
    collectLoop rest s.1 s.2 warns

/-- `Analyze`'s result collection from a list of per-symbol outcomes,
returning the affected binaries and the printed warnings. -/
def collectResults (rs : List TraceResult) : List AffectedBinary × List String :=
  collectLoop rs [] [] []

/-- `Analyze` (lsp_analyzer.go): filter unsupported kinds, trace each
supported symbol (the per-symbol goroutine is `traceFn`; `rs` is the order
in which the channel delivers them, here the dispatch order), collect, and
return a nil error on every branch. -/
def analyze (changes : List ChangedSymbol)
    (traceFn : GoSymbol → Except String (List CallPath)) :
    List AffectedBinary × Option String :=
  let supportedChanges := changes.filter
    (fun change => isSupportedSymbolKind change.symbol.kind)
  if supportedChanges.isEmpty then ([], none)
  else
    ((collectResults (supportedChanges.map (fun change => traceFn change.symbol))).1,
      none)

/-- The service identity of the package a URI's file lives in (the value
`isCrossServiceCall` compares when that URI's item becomes a caller node,
and the identity of a reported main's binary package). -/
def svcOfURI (uri : String) : String :=
  extractServiceName (extractPackageFromURI uri)

/-- The per-symbol tracer outcome handed to `analyze` for a fixed
already-computed trace (the per-symbol goroutine's `TraceToMain` result). -/
def traceFnFromResult (r : Option (List CallPath)) :
    GoSymbol → Except String (List CallPath) :=
  fun _ =>
    match r with
    | some ps => Except.ok ps
    | none => Except.error "no call hierarchy items found"

/-- The changed symbol of `TestInternalPackageNotCrossingShared`:
`ProcessRequest` in `internal/service-a`. -/
def praChanged : ChangedSymbol :=
  { symbol :=
    { name := "ProcessRequest", kind := SymKind.Function,
      posFile := "internal/service-a/handler.go", posLine := 18, posColumn := 21,
      packagePath := "example.com/shared-package-test/internal/service-a",
      extra := none } }

/-- The changed symbol of `TestSharedPackageChange`: `LogMessage` in
`pkg/common`. -/
def lmChanged : ChangedSymbol :=
  { symbol :=
    { name := "LogMessage", kind := SymKind.Function,
      posFile := "pkg/common/logger.go", posLine := 29, posColumn := 6,
      packagePath := "example.com/shared-package-test/pkg/common",
      extra := none } }

/-- The caller node of the changed `ProcessRequest` declaration (the
initial node `TraceToMain` builds for it). -/
def praNode : CallNode :=
  { functionName := "ProcessRequest", packagePath := "internal/service-a" }

/-- The initial node of the changed shared `LogMessage` declaration. -/
def lmNode : CallNode :=
  { functionName := "LogMessage", packagePath := "pkg/common" }

/-- The node of `internal/service-a.(*Server).Run` as it appears on an
accumulated path. -/
def runaNode : CallNode :=
  { functionName := "Run", packagePath := "internal/service-a" }

/-- The state the upward traversal reaches when tracing `ProcessRequest`
of `internal/service-a` through the shared-package-test graph (checked by
kernel evaluation below): the only reported binary is `service-a`. -/
def praTraceResultState : TraceState :=
  { visited := [itemKey mainaItem, itemKey rsItem, itemKey runaItem,
      itemKey islaItem, itemKey praItem],
    paths := [{ binaryName := "service-a",
                mainURI := "file:///r/cmd/service-a/main.go",
                path := [{ functionName := "main", packagePath := "cmd/service-a" },
                  { functionName := "RunServer", packagePath := "pkg/common" },
                  { functionName := "Run", packagePath := "internal/service-a" },
                  { functionName := "internalServiceLogic", packagePath := "internal/service-a" },
                  { functionName := "ProcessRequest", packagePath := "internal/service-a" }] }],
    seenBinaries := ["service-a"] }

/-! ### A two-node call cycle (mutual recursion) -/

/-- One half of a mutually recursive pair. -/
def cycAItem : CHItem := { name := "A", uri := "file:///r/internal/svc/a.go", line := 1, character := 1 }

/-- The other half of the mutually recursive pair. -/
def cycBItem : CHItem := { name := "B", uri := "file:///r/internal/svc/a.go", line := 2, character := 1 }

/-- `A` and `B` call each other: the incoming-call graph is a pure cycle. -/
def cycIncoming (item : CHItem) : List CHItem :=
  if item = cycAItem then [cycBItem]
  else if item = cycBItem then [cycAItem]
  else []

/-! ### The classifier condition as the specification words it -/

/-- The recognized shared-root segments of spec §4.1. -/
def claimSharedRoots : List String := ["pkg", "api", "common", "shared", "lib"]

/-- The service-private roots of spec §4.1 (service internals and
entry-point binaries). -/
def claimPrivateRoots : List String := ["internal", "cmd"]

/-- Segment scan for `claimSharedPkg`: a shared root found before any
service-private root makes the package shared; a private root seen first
means every later shared root is nested beneath it. -/
def claimSharedScan : List String → Bool
  | [] => false
  | seg :: rest =>
    if seg ∈ claimPrivateRoots then false
    else if seg ∈ claimSharedRoots then true
    else claimSharedScan rest

/-- The boundary-classifier condition exactly as the claim states it (for
comparison with the source's `isCommonPackage`): the path contains a
recognized shared-root segment and that segment is not itself nested
beneath a service-private root. -/
def claimSharedPkg (pkgPath : String) : Bool :=
  claimSharedScan (strSplit pkgPath "/")

/-! ### First-occurrence deduplication (the collector's output order) -/

/-- First-occurrence deduplication of a name stream against a running
`seen` set, returning the kept names in stream order together with the
final `seen` set. -/
def dedupFirstGo : List String → List String → List String × List String
  | seen, [] => ([], seen)
  | seen, n :: ns =>
    if n ∈ seen then dedupFirstGo seen ns
    else (n :: (dedupFirstGo (n :: seen) ns).1, (dedupFirstGo (n :: seen) ns).2)

/-- The binary names of all successfully traced call paths of a result
list, in drain order. -/
def okPathNames (rs : List TraceResult) : List String :=
  ((rs.filterMap (fun r =>
      match r with
      | Except.ok ps => some ps
      | Except.error _ => none)).flatten).map CallPath.binaryName

/-! ### Import-graph reachability for `Init` and blank imports

The Go implementation (`FindMainPackagesImporting`) lives in the gopls
fork (`gopls/internal/ripplesapi/tracer.go`), outside this repository's
tree; it is modelled here from spec §4.2. -/

/-- A package of the workspace import graph: import path, package name
(`"main"` marks an entry package), and imported package paths. -/
structure GoPackage where
  path : String
  pkgName : String
  imports : List String
deriving DecidableEq

/-- The imports of the package with path `p` (empty when `p` is not in the
workspace graph). -/
def pkgImports (g : List GoPackage) (p : String) : List String :=
  match g.find? (fun q => q.path = p) with
  | some q => q.imports
  | none => []

/-- Modelled from the spec: the recursive import-graph traversal "guarded
by a visited-package set" (§4.2).  The worklist starts at an entry
package; fuel is one unit per processed worklist entry. -/
def importVisit (g : List GoPackage) : Nat → List String → List String → List String
  | 0, _, visited => visited
  | _ + 1, [], visited => visited
  | fuel + 1, p :: rest, visited =>
    if p ∈ visited then importVisit g fuel rest visited
    else importVisit g fuel (pkgImports g p ++ rest) (p :: visited)

/-- Total number of import edges in the workspace graph. -/
def totalImports (g : List GoPackage) : Nat :=
  (g.map (fun q => q.imports.length)).sum

/-- Fuel that always lets `importVisit` drain its worklist (proved below). -/
def importFuel (g : List GoPackage) : Nat :=
  g.length * (totalImports g + 1) + 2

/-- Whether package `b` is transitively imported (reflexively) starting
from package `a`, computed by the visited-guarded traversal. -/
def canReachPkg (g : List GoPackage) (a b : String) : Bool :=
  decide (b ∈ importVisit g (importFuel g) [a] [])

/-- One import edge: `a` imports `b`. -/
def importEdge (g : List GoPackage) (a b : String) : Prop :=
  b ∈ pkgImports g a

/-- `a` transitively (and reflexively) imports `b`. -/
def ImportTransits (g : List GoPackage) (a b : String) : Prop :=
  Relation.ReflTransGen (importEdge g) a b

/-- Modelled from the spec: `FindMainPackagesImporting` (§4.2) — every
entry package (`Name == "main"`) that transitively reaches the target
package is reported directly, with no intermediate call nodes beyond the
entry and the target package. -/
def findMainPackagesImporting (g : List GoPackage) (targetPkgPath : String) :
    List CallPath :=
  (g.filter (fun q =>
      q.pkgName = "main" ∧ canReachPkg g q.path targetPkgPath = true)).map
    (fun q =>
      { binaryName := goBase q.path, mainURI := q.path,
        path := [{ functionName := "main", packagePath := q.path },
                 { functionName := "init", packagePath := targetPkgPath }] })

/-- `DirectCallTracer.TraceToMain` (internal/lsp/direct_tracer.go): kind
dispatch of the tracer `Analyze` actually uses.  The function and
constant/variable strategies live in the gopls fork and are abstracted as
`fnTrace`/`refTrace`; the init/blank-import strategy is the modelled
`findMainPackagesImporting`. -/
def directTraceToMain (g : List GoPackage)
    (fnTrace refTrace : GoSymbol → Except String (List CallPath))
    (symbol : GoSymbol) : Except String (List CallPath) :=
  match symbol.kind with
  | SymKind.Function => fnTrace symbol
  | SymKind.Constant => refTrace symbol
  | SymKind.Variable => refTrace symbol
  | SymKind.Init =>
    Except.ok (findMainPackagesImporting g symbol.packagePath)
  | SymKind.Import =>
    match symbol.extra with
    | some importExtra =>
      if importExtra.isBlankImport then
        Except.ok (findMainPackagesImporting g importExtra.path)
      else
        Except.error "only blank imports (_ import) are supported for tracing"
    | none => Except.error "import symbol missing ImportExtra information"
  | k => Except.error ("symbol kind " ++ symKindStr k ++ " not yet supported for tracing")

/-! ### The two-tier trace cache

Modelled from the spec and `PERSISTENT_CACHE.md`; the Go code is in the
gopls fork (`gopls/internal/ripplesapi/tracer.go` with
`gopls/internal/filecache`), outside this repository's tree. -/

/-- Modelled from the spec: the bytes stored in the persistent tier either
unmarshal to a `CallPath` list or are corrupt/undeserializable. -/
inductive CacheBlob where
  | serialized (paths : List CallPath)
  | corrupt (tag : Nat)
deriving DecidableEq

/-- JSON-marshal a trace result for the persistent tier. -/
def marshalPaths (ps : List CallPath) : CacheBlob :=
  CacheBlob.serialized ps

/-- JSON-unmarshal a persistent entry; corrupt bytes fail. -/
def unmarshalPaths : CacheBlob → Option (List CallPath)
  | CacheBlob.serialized ps => some ps
  | CacheBlob.corrupt _ => none

/-- Lookup in an associative store (newest binding wins, as for a map). -/
def assocGet {A : Type} (l : List (String × A)) (k : String) : Option A :=
  (l.find? (fun e => e.1 = k)).map Prod.snd

/-- Store into an associative store. -/
def assocSet {A : Type} (l : List (String × A)) (k : String) (v : A) :
    List (String × A) :=
  (k, v) :: l

/-- The two cache tiers: the in-process `sync.Map` and the persistent
content-addressed `filecache`. -/
structure TraceCache where
  mem : List (String × List CallPath)
  disk : List (String × CacheBlob)
deriving DecidableEq

/-- Modelled from the spec: tier-2 lookup and compute — on an in-process
hit return the cached paths; otherwise run the expensive trace and write
the result through both tiers.  The third component counts provider
invocations (0 on a hit, 1 on a compute). -/
def cacheMemOrCompute (st : TraceCache) (key : String)
    (compute : Unit → List CallPath) : List CallPath × TraceCache × Nat :=
  match assocGet st.mem key with
  | some paths => (paths, st, 0)
  | none =>
    (compute (),
      { mem := assocSet st.mem key (compute ()),
        disk := assocSet st.disk key (marshalPaths (compute ())) },
      1)

/-- Modelled from the spec: the cached `TraceToMain` lookup flow — check
the persistent tier first (a hit is unmarshalled and also stored in the
in-process tier; corrupt entries are a miss), then the in-process tier,
then compute and write through both tiers. -/
def cachedTraceToMain (st : TraceCache) (key : String)
    (compute : Unit → List CallPath) : List CallPath × TraceCache × Nat :=
  match assocGet st.disk key with
  | some blob =>
    match unmarshalPaths blob with
    | some paths => (paths, { st with mem := assocSet st.mem key paths }, 0)
    | none => cacheMemOrCompute st key compute
  | none => cacheMemOrCompute st key compute

/-- Modelled from the spec: `Set(k, v)` of the cache collaborator — write
`v` through both tiers under `k`. -/
def cacheSet (st : TraceCache) (key : String) (v : List CallPath) : TraceCache :=
  { mem := assocSet st.mem key v,
    disk := assocSet st.disk key (marshalPaths v) }

/-- Modelled from the spec: `Get(k)` of the cache collaborator — persistent
tier first (corrupt entries fall through as a miss), then the in-process
tier. -/
def cacheGet (st : TraceCache) (key : String) : Option (List CallPath) :=
  match assocGet st.disk key with
  | some blob =>
    match unmarshalPaths blob with
    | some paths => some paths
    | none => assocGet st.mem key
  | none => assocGet st.mem key

/-- Whether a per-symbol trace outcome succeeded. -/
def isOkResult : TraceResult → Bool
  | Except.ok _ => true
  | Except.error _ => false

/-- A call path of the `server` binary through `DoWithRetry` (first
reference site of the changed constant `MaxRetries`). -/
def cpRetry1 : CallPath :=
  { binaryName := "server", mainURI := "file:///r/cmd/server/main.go",
    path := [{ functionName := "main", packagePath := "cmd/server" },
      { functionName := "DoWithRetry", packagePath := "internal/service" }] }

/-- A call path of the same `server` binary through the second reference
site of `MaxRetries`. -/
def cpRetry2 : CallPath :=
  { binaryName := "server", mainURI := "file:///r/cmd/server/main.go",
    path := [{ functionName := "main", packagePath := "cmd/server" },
      { functionName := "DoWithRetry", packagePath := "internal/service" },
      { functionName := "performOperation", packagePath := "internal/service" }] }

/-- A one-path trace result for `service-a`. -/
def cpSvcA : CallPath :=
  { binaryName := "service-a", mainURI := "file:///r/cmd/service-a/main.go",
    path := [{ functionName := "main", packagePath := "cmd/service-a" }] }

/-- A one-path trace result for `service-b`. -/
def cpSvcB : CallPath :=
  { binaryName := "service-b", mainURI := "file:///r/cmd/service-b/main.go",
    path := [{ functionName := "main", packagePath := "cmd/service-b" }] }

/-- A changed struct-kind symbol (no tracing strategy is defined for it). -/
def cfgStructChanged : ChangedSymbol :=
  { symbol :=
    { name := "Config", kind := SymKind.Struct,
      posFile := "internal/config/config.go", posLine := 3, posColumn := 6,
      packagePath := "internal/config",
      extra := none } }

/-! ## Lemmas about the traversal -/

/-- The surviving caller entries are no more numerous than the raw caller
list. -/
lemma callerEntries_length_le (g : CHItem → List CHItem) (item : CHItem)
    (currentPath : List CallNode) :
    (callerEntries g item currentPath).length ≤ (g item).length :=
  List.length_filterMap_le _ _

/-- Shape of a surviving caller entry: its item is one of the raw callers,
its path extends the current path by the caller node, and the
cross-service filter passed. -/
lemma mem_callerEntries {g : CHItem → List CHItem} {item : CHItem}
    {currentPath : List CallNode} {e : CHItem × List CallNode}
    (he : e ∈ callerEntries g item currentPath) :
    e.1 ∈ g item ∧
      e.2 = ({ functionName := e.1.name,
               packagePath := extractPackageFromURI e.1.uri } : CallNode) :: currentPath ∧
      isCrossServiceCall (extractPackageFromURI e.1.uri) currentPath = false := by
  rcases List.mem_filterMap.mp he with ⟨a, ha, hfa⟩
  by_cases hc : isCrossServiceCall (extractPackageFromURI a.uri) currentPath = true
  · simp [callerEntries, hc] at hfa
  · rw [Bool.not_eq_true] at hc
    simp [hc] at hfa
    subst hfa
    exact ⟨ha, rfl, hc⟩

/-- Bookkeeping for the cycle-guard argument: removing a fresh key from
the unvisited remainder of the key universe shrinks its cardinality by
exactly one. -/
lemma card_sdiff_cons {K : Finset ItemKey} {k : ItemKey} {vs : List ItemKey}
    (hk : k ∈ K) (hv : k ∉ vs) :
    (K \ (k :: vs).toFinset).card + 1 = (K \ vs.toFinset).card := by
  have hmem : k ∈ K \ vs.toFinset := by
    rw [Finset.mem_sdiff, List.mem_toFinset]
    exact ⟨hk, hv⟩
  rw [List.toFinset_cons, Finset.sdiff_insert,
    Finset.card_erase_of_mem hmem]
  have hpos : 0 < (K \ vs.toFinset).card := Finset.card_pos.mpr ⟨k, hmem⟩
  omega

/-- Fuel sufficiency (hence termination) of the upward traversal: when all
reachable item keys live in a finite universe `K`, every item has at most
`C` incoming callers, and the fuel exceeds the measure
`|K \ visited| * (C+1) + |pending|`, the traversal completes, the visited
set only grows, and it stays duplicate-free. -/
lemma traceFuelSufficient (g : CHItem → List CHItem) (K : Finset ItemKey) (C : Nat)
    (hclosed : ∀ it : CHItem, ∀ c ∈ g it, itemKey c ∈ K)
    (hbound : ∀ it : CHItem, (g it).length ≤ C) :
    ∀ fuel pending (st : TraceState),
      (∀ e ∈ pending, itemKey (Prod.fst e) ∈ K) →
      (K \ st.visited.toFinset).card * (C + 1) + pending.length < fuel →
      ∃ st', traceIncomingCalls g fuel pending st = some st' ∧
        (∀ k ∈ st.visited, k ∈ st'.visited) ∧
        (st.visited.Nodup → st'.visited.Nodup) := by
  intro fuel
  induction fuel using Nat.strong_induction_on with
  | _ fuel ih =>
    intro pending st hkeys hfuel
    match fuel, hfuel with
    | Nat.succ n, hfuel =>
      cases pending with
      | nil => exact ⟨st, rfl, fun k hk => hk, id⟩
      | cons e rest =>
        obtain ⟨item, path⟩ := e
        have hkK : itemKey item ∈ K := hkeys _ (List.mem_cons_self _ _)
        have hrestkeys : ∀ e ∈ rest, itemKey (Prod.fst e) ∈ K :=
          fun e he => hkeys e (List.mem_cons_of_mem _ he)
        simp only [traceIncomingCalls]
        by_cases hv : itemKey item ∈ st.visited
        · rw [if_pos hv]
          apply ih n (Nat.lt_succ_self n) rest st hrestkeys
          simp only [List.length_cons] at hfuel
          omega
        · rw [if_neg hv]
          have hcard := card_sdiff_cons hkK hv
          by_cases hmain : isMainFunction item = true
          · rw [if_pos hmain]
            by_cases hseen : getBinaryName item ∈ st.seenBinaries
            · rw [if_pos hseen]
              obtain ⟨st', heq, hsub, hnd⟩ := ih n (Nat.lt_succ_self n) rest
                { st with visited := itemKey item :: st.visited } hrestkeys
                (by
                  simp only [List.length_cons] at hfuel
                  generalize hA : (K \ st.visited.toFinset).card = A at hfuel hcard
                  generalize hB : (K \ (itemKey item :: st.visited).toFinset).card = B at hcard ⊢
                  have : B + 1 = A := hcard
                  nlinarith)
              refine ⟨st', heq, ?_, ?_⟩
              · exact fun k hk => hsub k (List.mem_cons_of_mem _ hk)
              · intro hnodup
                exact hnd (List.nodup_cons.mpr ⟨hv, hnodup⟩)
            · rw [if_neg hseen]
              obtain ⟨st', heq, hsub, hnd⟩ := ih n (Nat.lt_succ_self n) rest
                { visited := itemKey item :: st.visited,
                  paths := st.paths ++
                    [{ binaryName := getBinaryName item, mainURI := item.uri, path := path }],
                  seenBinaries := getBinaryName item :: st.seenBinaries } hrestkeys
                (by
                  simp only [List.length_cons] at hfuel
                  generalize hA : (K \ st.visited.toFinset).card = A at hfuel hcard
                  generalize hB : (K \ (itemKey item :: st.visited).toFinset).card = B at hcard ⊢
                  nlinarith)
              refine ⟨st', heq, ?_, ?_⟩
              · exact fun k hk => hsub k (List.mem_cons_of_mem _ hk)
              · intro hnodup
                exact hnd (List.nodup_cons.mpr ⟨hv, hnodup⟩)
          · rw [if_neg hmain]
            obtain ⟨st', heq, hsub, hnd⟩ := ih n (Nat.lt_succ_self n)
              (callerEntries g item path ++ rest)
              { st with visited := itemKey item :: st.visited }
              (by
                intro e he
                rcases List.mem_append.mp he with he | he
                · exact hclosed item _ (mem_callerEntries he).1
                · exact hrestkeys e he)
              (by
                have hlen : (callerEntries g item path ++ rest).length ≤ C + rest.length := by
                  rw [List.length_append]
                  have := Nat.le_trans (callerEntries_length_le g item path) (hbound item)
                  omega
                simp only [List.length_cons] at hfuel
                generalize hA : (K \ st.visited.toFinset).card = A at hfuel hcard
                generalize hB : (K \ (itemKey item :: st.visited).toFinset).card = B at hcard ⊢
                nlinarith)
            refine ⟨st', heq, ?_, ?_⟩
            · exact fun k hk => hsub k (List.mem_cons_of_mem _ hk)
            · intro hnodup
              exact hnd (List.nodup_cons.mpr ⟨hv, hnodup⟩)

/-- An item whose key is already in the per-trace visited set is dropped
without being expanded: the traversal just moves on to the remaining
pending work. -/
lemma traceVisitedGuard (g : CHItem → List CHItem) (fuel : Nat) (item : CHItem)
    (path : List CallNode) (pending : List (CHItem × List CallNode))
    (st : TraceState) (hv : itemKey item ∈ st.visited) :
    traceIncomingCalls g (fuel + 1) ((item, path) :: pending) st =
      traceIncomingCalls g fuel pending st := by
  simp only [traceIncomingCalls, if_pos hv]

/-- When the cross-service filter lets a caller edge through over a path
that contains a service-private node, the caller's service identity is
either empty or that node's own service. -/
lemma crossServiceFalse {callerPkg : String} {path : List CallNode}
    {n0 : CallNode} (hmem : n0 ∈ path)
    (hfalse : isCrossServiceCall callerPkg path = false)
    (hsvc : extractServiceName n0.packagePath ≠ "")
    (hcommon : isCommonPackage n0.packagePath = false) :
    extractServiceName callerPkg = "" ∨
      extractServiceName callerPkg = extractServiceName n0.packagePath := by
  have hne : path.isEmpty = false := by
    cases path with
    | nil => cases hmem
    | cons a l => rfl
  unfold isCrossServiceCall at hfalse
  rw [hne] at hfalse
  simp only [Bool.false_eq_true, if_false, List.any_eq_false] at hfalse
  have h := hfalse n0 hmem
  by_cases hc : extractServiceName callerPkg = ""
  · exact Or.inl hc
  · right
    by_contra hne2
    apply h
    simp only [decide_eq_true_eq]
    exact ⟨hc, hsvc, hne2, by rw [hcommon]; exact Bool.false_ne_true⟩

/-- Isolation invariant of the upward traversal: if every pending entry's
path contains a fixed service-private node `n0` of service `S`, and every
pending item (as well as every already-collected path's main) lives in a
package whose service identity is `S` or empty, then every call path the
traversal ever emits ends at a main whose package's service identity is
`S` or empty — a different service's entry package is never reported. -/
lemma traceIsolation (g : CHItem → List CHItem) (S : String) (n0 : CallNode)
    (hS : S ≠ "") (hn0svc : extractServiceName n0.packagePath = S)
    (hn0common : isCommonPackage n0.packagePath = false) :
    ∀ fuel pending (st st' : TraceState),
      (∀ e ∈ pending, n0 ∈ Prod.snd e ∧
        (svcOfURI (Prod.fst e).uri = S ∨ svcOfURI (Prod.fst e).uri = "")) →
      (∀ p ∈ st.paths, svcOfURI p.mainURI = S ∨ svcOfURI p.mainURI = "") →
      traceIncomingCalls g fuel pending st = some st' →
      ∀ p ∈ st'.paths, svcOfURI p.mainURI = S ∨ svcOfURI p.mainURI = "" := by
  intro fuel
  induction fuel with
  | zero =>
    intro pending st st' _ _ heq
    simp [traceIncomingCalls] at heq
  | succ n ih =>
    intro pending st st' hpend hpaths heq
    cases pending with
    | nil =>
      simp only [traceIncomingCalls, Option.some.injEq] at heq
      subst heq
      exact hpaths
    | cons e rest =>
      obtain ⟨item, path⟩ := e
      have hhead := hpend _ (List.mem_cons_self _ _)
      have hrest : ∀ e ∈ rest, n0 ∈ Prod.snd e ∧
          (svcOfURI (Prod.fst e).uri = S ∨ svcOfURI (Prod.fst e).uri = "") :=
        fun e he => hpend e (List.mem_cons_of_mem _ he)
      simp only [traceIncomingCalls] at heq
      by_cases hv : itemKey item ∈ st.visited
      · rw [if_pos hv] at heq
        exact ih rest st st' hrest hpaths heq
      · rw [if_neg hv] at heq
        by_cases hmain : isMainFunction item = true
        · rw [if_pos hmain] at heq
          by_cases hseen : getBinaryName item ∈ st.seenBinaries
          · rw [if_pos hseen] at heq
            exact ih rest { st with visited := itemKey item :: st.visited }
              st' hrest hpaths heq
          · rw [if_neg hseen] at heq
            apply ih rest _ st' hrest ?_ heq
            intro p hp
            rcases List.mem_append.mp hp with hp | hp
            · exact hpaths p hp
            · rcases List.mem_singleton.mp hp with rfl
              exact hhead.2
        · rw [if_neg hmain] at heq
          apply ih (callerEntries g item path ++ rest)
            { st with visited := itemKey item :: st.visited } st' ?_ hpaths heq
          intro e he
          rcases List.mem_append.mp he with he | he
          · obtain ⟨-, hpath, hcross⟩ := mem_callerEntries he
            refine ⟨?_, ?_⟩
            · rw [hpath]
              exact List.mem_cons_of_mem _ hhead.1
            · have := crossServiceFalse hhead.1 hcross
                (by rw [hn0svc]; exact hS) hn0common
              rcases this with h | h
              · exact Or.inr h
              · exact Or.inl (by rw [svcOfURI, h, hn0svc])
          · exact hrest e he

/-- C4.  The upward traversal terminates on every call graph, cyclic ones
included, and visits each distinct declaration position at most once per
top-level trace: (1) a pending node whose key (declaration file plus
position) is already in the per-trace visited set is never expanded again;
(2) whenever the reachable keys lie in a finite universe `K`, every item
has at most `C` incoming callers, and the fuel exceeds
`|K \ visited| * (C+1) + |pending|`, the traversal completes (never
exhausts its fuel), with a visited set that only grows and — visiting each
key at most once — remains duplicate-free. -/
theorem ascend_terminates_and_visits_each_position_once :
    (∀ (g : CHItem → List CHItem) (fuel : Nat) (item : CHItem)
        (path : List CallNode) (pending : List (CHItem × List CallNode))
        (st : TraceState), itemKey item ∈ st.visited →
      traceIncomingCalls g (fuel + 1) ((item, path) :: pending) st =
        traceIncomingCalls g fuel pending st) ∧
    (∀ (g : CHItem → List CHItem) (K : Finset ItemKey) (C : Nat),
      (∀ it : CHItem, ∀ c ∈ g it, itemKey c ∈ K) →
      (∀ it : CHItem, (g it).length ≤ C) →
      ∀ fuel pending (st : TraceState),
        (∀ e ∈ pending, itemKey (Prod.fst e) ∈ K) →
        (K \ st.visited.toFinset).card * (C + 1) + pending.length < fuel →
        ∃ st', traceIncomingCalls g fuel pending st = some st' ∧
          (∀ k ∈ st.visited, k ∈ st'.visited) ∧
          (st.visited.Nodup → st'.visited.Nodup)) := by
  constructor
  · exact fun g fuel item path pending st hv => traceVisitedGuard g fuel item path pending st hv
  · exact fun g K C hclosed hbound => traceFuelSufficient g K C hclosed hbound

/-- Witness for C4 on the two-node mutual-recursion cycle: the visited
guard really drops an already-visited node, and with the concrete
universe of both keys and caller bound 1 the traversal completes from the
empty state. -/
theorem ascend_terminates_witness :
    (traceIncomingCalls cycIncoming 3
        [(cycAItem, [])] { visited := [itemKey cycAItem], paths := [], seenBinaries := [] } =
      traceIncomingCalls cycIncoming 2
        [] { visited := [itemKey cycAItem], paths := [], seenBinaries := [] }) ∧
    ∃ st', traceIncomingCalls cycIncoming 8
        [(cycAItem, [{ functionName := "A", packagePath := "internal/svc" }])]
        { visited := [], paths := [], seenBinaries := [] } = some st' ∧
      (∀ k ∈ ([] : List ItemKey), k ∈ st'.visited) ∧
      (([] : List ItemKey).Nodup → st'.visited.Nodup) := by
  constructor
  · exact ascend_terminates_and_visits_each_position_once.1 cycIncoming 2 cycAItem
      [] [] { visited := [itemKey cycAItem], paths := [], seenBinaries := [] }
      (by decide)
  · exact ascend_terminates_and_visits_each_position_once.2 cycIncoming
      {itemKey cycAItem, itemKey cycBItem} 1
      (by
        intro it c hc
        by_cases h1 : it = cycAItem
        · simp only [cycIncoming, if_pos h1, List.mem_singleton] at hc
          subst hc
          decide
        · by_cases h2 : it = cycBItem
          · simp only [cycIncoming, if_neg h1, if_pos h2, List.mem_singleton] at hc
            subst hc
            decide
          · simp [cycIncoming, h1, h2] at hc)
      (by
        intro it
        by_cases h1 : it = cycAItem
        · subst h1
          decide
        · by_cases h2 : it = cycBItem
          · subst h2
            decide
          · simp [cycIncoming, h1, h2])
      8
      [(cycAItem, [{ functionName := "A", packagePath := "internal/svc" }])]
      { visited := [], paths := [], seenBinaries := [] }
      (by decide)
      (by decide)

/-- C1.  Tracing a change to a function in one service's private package
never reports another service's binary: (1) in general, when the trace
starts from a node of a non-empty service identity `S` in a non-shared
package, every call path the traversal emits ends at a main whose package
has service identity `S` or none — the cross-service edge toward a
different service is skipped during upward traversal; (2) in the two
services/shared dispatch interface/common helper scenario of
`testdata/shared-package-test`, tracing `internal/service-a.ProcessRequest`
reports exactly `service-a`, and (3) `Analyze` on that changed symbol
returns exactly the `service-a` binary, never `service-b`. -/
theorem private_change_never_reports_other_service :
    (∀ (g : CHItem → List CHItem) (S : String) (n0 : CallNode),
      S ≠ "" → extractServiceName n0.packagePath = S →
      isCommonPackage n0.packagePath = false →
      ∀ fuel pending (st st' : TraceState),
        (∀ e ∈ pending, n0 ∈ Prod.snd e ∧
          (svcOfURI (Prod.fst e).uri = S ∨ svcOfURI (Prod.fst e).uri = "")) →
        (∀ p ∈ st.paths, svcOfURI p.mainURI = S ∨ svcOfURI p.mainURI = "") →
        traceIncomingCalls g fuel pending st = some st' →
        ∀ p ∈ st'.paths, svcOfURI p.mainURI = S ∨ svcOfURI p.mainURI = "") ∧
    (traceToMain sharedIncoming 40 [praItem]).map (List.map CallPath.binaryName) =
      some ["service-a"] ∧
    (analyze [praChanged]
        (traceFnFromResult (traceToMain sharedIncoming 40 [praItem]))).1.map
      AffectedBinary.name = ["service-a"] := by
  refine ⟨?_, by decide, by decide⟩
  intro g S n0 hS hn0svc hn0common
  exact traceIsolation g S n0 hS hn0svc hn0common

/-- Witness for C1: the general isolation statement applied to the
concrete shared-package-test trace of `ProcessRequest`, whose hypotheses
hold by evaluation; every emitted path's main lives in `service-a` or in
no service. -/
theorem private_change_isolation_witness :
    (("service-a" : String) ≠ "" ∧
      extractServiceName praNode.packagePath = "service-a" ∧
      isCommonPackage praNode.packagePath = false ∧
      traceIncomingCalls sharedIncoming 40 [(praItem, [praNode])]
        { visited := [], paths := [], seenBinaries := [] } = some praTraceResultState) ∧
    (∀ p ∈ praTraceResultState.paths,
      svcOfURI p.mainURI = "service-a" ∨ svcOfURI p.mainURI = "") := by
  refine ⟨⟨by decide, by decide, by decide, by decide⟩, ?_⟩
  exact private_change_never_reports_other_service.1 sharedIncoming "service-a" praNode
    (by decide) (by decide) (by decide) 40 [(praItem, [praNode])]
    { visited := [], paths := [], seenBinaries := [] } praTraceResultState
    (by decide) (by decide) (by decide)

/-- C2 counterexample.  A shared-package function can be called
transitively by a service's main along a chain that dips through another
service's private package; the filter then prunes that chain, so the
claim "tracing a shared function reports every service whose main calls
it directly or transitively" fails as stated: `pkg/common.SharedHelper`
is shared, `cmd/service-b.main` reaches it through
`pkg/common.Wrap -> internal/service-a.Glue`, yet the trace reports only
`service-a`. -/
theorem shared_function_misses_round_trip_service :
    isCommonPackage (extractPackageFromURI shItem.uri) = true ∧
    isMainFunction mainbRt = true ∧
    getBinaryName mainbRt = "service-b" ∧
    mainbRt ∈ roundTripIncoming wrapItem ∧
    wrapItem ∈ roundTripIncoming glueItem ∧
    glueItem ∈ roundTripIncoming shItem ∧
    (traceToMain roundTripIncoming 20 [shItem]).map (List.map CallPath.binaryName) =
      some ["service-a"] := by
  decide

/-- C2 as amended.  The upward traversal prunes a caller edge exactly
when the caller's package has a non-empty service identity different from
that of some non-shared node already on the accumulated path; in
particular no caller edge is pruned while the accumulated path lies
entirely in packages with no service identity (shared packages), so a
changed shared function fans out to all of its callers at the shared
level.  In the concrete scenario where `pkg/common.LogMessage` is called
by `cmd/service-a` and `cmd/service-b`, the trace and `Analyze` both
return exactly `service-a` and `service-b`. -/
theorem shared_function_reports_caller_services :
    (∀ (callerPkg : String) (path : List CallNode),
      isCrossServiceCall callerPkg path = true ↔
        ∃ node ∈ path, extractServiceName callerPkg ≠ "" ∧
          extractServiceName node.packagePath ≠ "" ∧
          extractServiceName callerPkg ≠ extractServiceName node.packagePath ∧
          isCommonPackage node.packagePath = false) ∧
    (∀ (callerPkg : String) (path : List CallNode),
      (∀ node ∈ path, extractServiceName node.packagePath = "") →
      isCrossServiceCall callerPkg path = false) ∧
    (traceToMain sharedIncoming 40 [lmItem]).map (List.map CallPath.binaryName) =
      some ["service-a", "service-b"] ∧
    (analyze [lmChanged]
        (traceFnFromResult (traceToMain sharedIncoming 40 [lmItem]))).1.map
      AffectedBinary.name = ["service-a", "service-b"] := by
  have hchar : ∀ (callerPkg : String) (path : List CallNode),
      isCrossServiceCall callerPkg path = true ↔
        ∃ node ∈ path, extractServiceName callerPkg ≠ "" ∧
          extractServiceName node.packagePath ≠ "" ∧
          extractServiceName callerPkg ≠ extractServiceName node.packagePath ∧
          isCommonPackage node.packagePath = false := by
    intro callerPkg path
    unfold isCrossServiceCall
    cases path with
    | nil => simp
    | cons a l =>
      simp only [List.isEmpty_cons, Bool.false_eq_true, if_false,
        List.any_eq_true, decide_eq_true_eq, Bool.not_eq_true]
  refine ⟨hchar, ?_, by decide, by decide⟩
  intro callerPkg path hall
  cases hcross : isCrossServiceCall callerPkg path with
  | false => rfl
  | true =>
    obtain ⟨node, hmem, -, hns, -, -⟩ := (hchar callerPkg path).mp hcross
    exact absurd (hall node hmem) hns

/-- Witness for C2: the no-pruning-on-shared-paths statement applied to
the shared one-node path of the `LogMessage` trace, and the pruning
characterization applied to the edge the filter does cut. -/
theorem shared_fanout_filter_witness :
    ((∀ node ∈ [lmNode], extractServiceName node.packagePath = "") ∧
      isCrossServiceCall "internal/service-a" [lmNode] = false) ∧
    (isCrossServiceCall "cmd/service-b" [runaNode] = true ↔
      ∃ node ∈ [runaNode],
        extractServiceName "cmd/service-b" ≠ "" ∧
        extractServiceName node.packagePath ≠ "" ∧
        extractServiceName "cmd/service-b" ≠ extractServiceName node.packagePath ∧
        isCommonPackage node.packagePath = false) := by
  constructor
  · refine ⟨by decide, ?_⟩
    exact shared_function_reports_caller_services.2.1 "internal/service-a"
      [lmNode] (by decide)
  · exact shared_function_reports_caller_services.1 "cmd/service-b" [runaNode]

/-! ## Lemmas about the collector -/

/-- Invariant of the inner dedup loop: if the accumulated binaries carry
pairwise-distinct names all recorded in `seen`, both facts persist, and
`seen` only grows. -/
lemma collectPaths_inv :
    ∀ (paths : List CallPath) (seen : List String) (acc : List AffectedBinary),
      (acc.map AffectedBinary.name).Nodup →
      (∀ n ∈ acc.map AffectedBinary.name, n ∈ seen) →
      ((collectPaths paths seen acc).2.map AffectedBinary.name).Nodup ∧
        (∀ n ∈ (collectPaths paths seen acc).2.map AffectedBinary.name,
          n ∈ (collectPaths paths seen acc).1) ∧
        (∀ n ∈ seen, n ∈ (collectPaths paths seen acc).1) := by
  intro paths
  induction paths with
  | nil =>
    intro seen acc h1 h2
    exact ⟨h1, h2, fun n hn => hn⟩
  | cons p ps ih =>
    intro seen acc h1 h2
    by_cases hb : p.binaryName ∈ seen
    · simp only [collectPaths, if_pos hb]
      exact ih seen acc h1 h2
    · simp only [collectPaths, if_neg hb]
      have h1' : ((acc ++ [mkAffected p]).map AffectedBinary.name).Nodup := by
        rw [List.map_append, List.nodup_append]
        refine ⟨h1, List.nodup_singleton _, ?_⟩
        intro n hn hn2
        rcases List.mem_singleton.mp hn2 with rfl
        exact hb (h2 _ hn)
      have h2' : ∀ n ∈ (acc ++ [mkAffected p]).map AffectedBinary.name,
          n ∈ p.binaryName :: seen := by
        intro n hn
        rw [List.map_append, List.mem_append] at hn
        rcases hn with hn | hn
        · exact List.mem_cons_of_mem _ (h2 n hn)
        · rcases List.mem_singleton.mp hn with rfl
          exact List.mem_cons_self _ _
      obtain ⟨g1, g2, g3⟩ := ih (p.binaryName :: seen) (acc ++ [mkAffected p]) h1' h2'
      exact ⟨g1, g2, fun n hn => g3 n (List.mem_cons_of_mem _ hn)⟩

/-- Invariant of the drain loop: the names of the collected binaries stay
pairwise distinct. -/
lemma collectLoop_nodup :
    ∀ (rs : List TraceResult) (seen : List String) (acc : List AffectedBinary)
      (warns : List String),
      (acc.map AffectedBinary.name).Nodup →
      (∀ n ∈ acc.map AffectedBinary.name, n ∈ seen) →
      ((collectLoop rs seen acc warns).1.map AffectedBinary.name).Nodup := by
  intro rs
  induction rs with
  | nil =>
    intro seen acc warns h1 _
    exact h1
  | cons r rest ih =>
    intro seen acc warns h1 h2
    cases r with
    | error e => exact ih seen acc _ h1 h2
    | ok paths =>
      obtain ⟨g1, g2, -⟩ := collectPaths_inv paths seen acc h1 h2
      exact ih _ _ warns g1 g2

/-- C3.  One `Analyze` call returns at most one `AffectedBinary` per
distinct binary name, whatever the per-symbol results are: the collected
names are pairwise distinct; and in the concrete constant scenario, two
distinct reference sites of `MaxRetries` whose call paths both end at the
`server` binary produce exactly one `AffectedBinary` for `server`. -/
theorem analyze_dedups_binaries_by_name :
    (∀ rs : List TraceResult,
      ((collectResults rs).1.map AffectedBinary.name).Nodup) ∧
    (collectResults [Except.ok [cpRetry1, cpRetry2]]).1.map AffectedBinary.name =
      ["server"] := by
  constructor
  · intro rs
    exact collectLoop_nodup rs [] [] [] (List.nodup_nil) (by intro n hn; cases hn)
  · decide

/-- C5 counterexample.  `Analyze` performs no sort: draining the same two
per-symbol results in the two possible completion orders returns the same
binaries in two different orders, so the output is not sorted by binary
name and not reproducible across completion orders. -/
theorem analyze_output_order_follows_completion_order :
    (collectResults [Except.ok [cpSvcB], Except.ok [cpSvcA]]).1.map
        AffectedBinary.name = ["service-b", "service-a"] ∧
    (collectResults [Except.ok [cpSvcA], Except.ok [cpSvcB]]).1.map
        AffectedBinary.name = ["service-a", "service-b"] ∧
    ("service-b" : String) ≠ "service-a" := by
  decide

/-- The binaries collected by the drain loop do not depend on the warning
accumulator. -/
lemma collectLoop_fst_warns :
    ∀ (rs : List TraceResult) (seen : List String) (acc : List AffectedBinary)
      (w1 w2 : List String),
      (collectLoop rs seen acc w1).1 = (collectLoop rs seen acc w2).1 := by
  intro rs
  induction rs with
  | nil => intro seen acc w1 w2; rfl
  | cons r rest ih =>
    intro seen acc w1 w2
    cases r with
    | error e => exact ih seen acc _ _
    | ok paths => exact ih _ _ w1 w2

/-- First-occurrence dedup against a seen set, stepping through a name
stream split at an append. -/
lemma dedupFirstGo_append :
    ∀ (l1 l2 seen : List String),
      dedupFirstGo seen (l1 ++ l2) =
        ((dedupFirstGo seen l1).1 ++ (dedupFirstGo (dedupFirstGo seen l1).2 l2).1,
          (dedupFirstGo (dedupFirstGo seen l1).2 l2).2) := by
  intro l1
  induction l1 with
  | nil => intro l2 seen; rfl
  | cons n ns ih =>
    intro l2 seen
    by_cases hn : n ∈ seen
    · simp only [List.cons_append, dedupFirstGo, if_pos hn]
      exact ih l2 seen
    · simp only [List.cons_append, dedupFirstGo, if_neg hn, List.append_eq]
      rw [ih l2 (n :: seen)]

/-- The inner dedup loop emits exactly the first-occurrence dedup of the
incoming binary names and ends with the matching seen set. -/
lemma collectPaths_dedup :
    ∀ (paths : List CallPath) (seen : List String) (acc : List AffectedBinary),
      (collectPaths paths seen acc).2.map AffectedBinary.name =
          acc.map AffectedBinary.name ++
            (dedupFirstGo seen (paths.map CallPath.binaryName)).1 ∧
        (collectPaths paths seen acc).1 =
          (dedupFirstGo seen (paths.map CallPath.binaryName)).2 := by
  intro paths
  induction paths with
  | nil =>
    intro seen acc
    exact ⟨(List.append_nil _).symm, rfl⟩
  | cons p ps ih =>
    intro seen acc
    by_cases hb : p.binaryName ∈ seen
    · simp only [collectPaths, if_pos hb, List.map_cons, dedupFirstGo]
      exact ih seen acc
    · simp only [collectPaths, if_neg hb, List.map_cons, dedupFirstGo]
      obtain ⟨ga, gb⟩ := ih (p.binaryName :: seen) (acc ++ [mkAffected p])
      constructor
      · rw [ga, List.map_append]
        simp [mkAffected, List.append_assoc]
      · exact gb

/-- The drain loop's binaries are the first-occurrence dedup of the
binary names of all successful results, in drain order, appended to the
accumulator. -/
lemma collectLoop_dedup :
    ∀ (rs : List TraceResult) (seen : List String) (acc : List AffectedBinary)
      (warns : List String),
      (collectLoop rs seen acc warns).1.map AffectedBinary.name =
        acc.map AffectedBinary.name ++ (dedupFirstGo seen (okPathNames rs)).1 := by
  intro rs
  induction rs with
  | nil =>
    intro seen acc warns
    exact (List.append_nil _).symm
  | cons r rest ih =>
    intro seen acc warns
    cases r with
    | error e =>
      have hok : okPathNames (Except.error e :: rest) = okPathNames rest := by
        simp [okPathNames]
      rw [hok]
      exact ih seen acc _
    | ok paths =>
      have hok : okPathNames (Except.ok paths :: rest) =
          paths.map CallPath.binaryName ++ okPathNames rest := by
        simp [okPathNames]
      rw [hok, dedupFirstGo_append]
      obtain ⟨ga, gb⟩ := collectPaths_dedup paths seen acc
      simp only [collectLoop]
      rw [ih _ _ warns, ga, gb, List.append_assoc]

/-- C5 as amended.  `Analyze` returns the affected binaries in the order
their names first appear while draining the per-symbol results (no sort
is applied), deduplicated by name: the output names are exactly the
first-occurrence dedup of the successful call paths' binary names in
drain order. -/
theorem analyze_output_is_first_seen_order :
    ∀ rs : List TraceResult,
      (collectResults rs).1.map AffectedBinary.name =
        (dedupFirstGo [] (okPathNames rs)).1 :=
  fun rs => collectLoop_dedup rs [] [] []

/-- Errored results contribute no binaries: the drain loop computes the
same binaries as on the successful results alone, while each errored
result appends exactly one warning. -/
lemma collectLoop_errors :
    ∀ (rs : List TraceResult) (seen : List String) (acc : List AffectedBinary)
      (warns : List String),
      (collectLoop rs seen acc warns).1 =
          (collectLoop (rs.filter isOkResult) seen acc warns).1 ∧
        (collectLoop rs seen acc warns).2.length =
          warns.length + (rs.filter (fun r => !isOkResult r)).length := by
  intro rs
  induction rs with
  | nil => intro seen acc warns; exact ⟨rfl, rfl⟩
  | cons r rest ih =>
    intro seen acc warns
    cases r with
    | error e =>
      obtain ⟨ga, gb⟩ := ih seen acc (warns ++ ["Warning: failed to trace symbol: " ++ e])
      have hc1 : isOkResult (Except.error e : TraceResult) = false := rfl
      have hc2 : (!isOkResult (Except.error e : TraceResult)) = true := rfl
      simp only [List.filter_cons, hc1, hc2, Bool.not_false, Bool.not_true,
        Bool.false_eq_true, if_false, if_true, eq_self_iff_true, ite_true, ite_false]
      refine ⟨?_, ?_⟩
      · simp only [collectLoop]
        rw [ga]
        exact collectLoop_fst_warns _ _ _ _ _
      · simp only [collectLoop]
        rw [gb]
        simp only [List.length_append, List.length_cons, List.length_nil]
        omega
    | ok paths =>
      obtain ⟨ga, gb⟩ :=
        ih (collectPaths paths seen acc).1 (collectPaths paths seen acc).2 warns
      have hc1 : isOkResult (Except.ok paths : TraceResult) = true := rfl
      have hc2 : (!isOkResult (Except.ok paths : TraceResult)) = false := rfl
      simp only [List.filter_cons, hc1, hc2, Bool.not_false, Bool.not_true,
        Bool.false_eq_true, if_false, if_true, eq_self_iff_true, ite_true, ite_false]
      exact ⟨ga, gb⟩

/-- C8.  One symbol's trace failure never removes or alters another
symbol's contribution and never aborts the run: for every drained result
list, the returned binaries equal those of the successful results alone
(the union of all successful per-symbol traces), and each failed result
contributes exactly one warning and zero call paths. -/
theorem failed_symbol_is_isolated :
    ∀ rs : List TraceResult,
      (collectResults rs).1 = (collectResults (rs.filter isOkResult)).1 ∧
      (collectResults rs).2.length =
        (rs.filter (fun r => !isOkResult r)).length := by
  intro rs
  obtain ⟨ga, gb⟩ := collectLoop_errors rs [] [] []
  exact ⟨ga, by rw [collectResults, gb]; simp⟩

/-- C10.  `Analyze` never returns a non-nil error: the error component is
`none` for every input, and a list with no supported symbol kinds (the
empty list included) returns nil results and nil error. -/
theorem analyze_never_errors :
    ∀ (changes : List ChangedSymbol)
      (traceFn : GoSymbol → Except String (List CallPath)),
      (analyze changes traceFn).2 = none ∧
      ((changes.all (fun c => !isSupportedSymbolKind c.symbol.kind)) = true →
        analyze changes traceFn = ([], none)) := by
  intro changes traceFn
  constructor
  · rw [analyze]
    by_cases h : (changes.filter
        (fun change => isSupportedSymbolKind change.symbol.kind)).isEmpty = true
    · rw [if_pos h]
    · rw [if_neg h]
  · intro hall
    rw [List.all_eq_true] at hall
    have hfil : changes.filter
        (fun change => isSupportedSymbolKind change.symbol.kind) = [] := by
      rw [List.filter_eq_nil_iff]
      intro c hc
      have := hall c hc
      simp only [Bool.not_eq_eq_eq_not, Bool.not_true] at this
      simp [this]
    rw [analyze, hfil]
    rfl

/-- Witness for C10: a single struct-kind symbol is unsupported, and
`Analyze` returns nil results and nil error on it. -/
theorem analyze_never_errors_witness :
    ([cfgStructChanged].all (fun c => !isSupportedSymbolKind c.symbol.kind)) = true ∧
    analyze [cfgStructChanged] (traceFnFromResult none) = ([], none) := by
  refine ⟨by decide, ?_⟩
  exact (analyze_never_errors _ (traceFnFromResult none)).2 (by decide)

/-! ## Lemmas about the boundary classifier -/

/-- Splitting on `/` peels off a leading slash-free chunk followed by a
separator. -/
lemma strSplitGoSlash :
    ∀ (pre rest acc : List Char),
      (∀ c ∈ pre, (('/' : Char) == c) = false) →
      strSplitGo ['/'] (pre.length + rest.length + 1) (pre ++ '/' :: rest) acc =
        (acc.reverse ++ pre) :: strSplitGo ['/'] rest.length rest [] := by
  intro pre
  induction pre with
  | nil =>
    intro rest acc _
    simp only [List.nil_append, List.length_nil, Nat.zero_add]
    simp only [strSplitGo]
    rw [if_pos]
    · simp
    · refine ⟨by simp, ?_⟩
      simp [List.isPrefixOf]
  | cons c cs ih =>
    intro rest acc hpre
    have hc : (('/' : Char) == c) = false := hpre c (List.mem_cons_self _ _)
    have hlen : (c :: cs).length + rest.length + 1 =
        (cs.length + rest.length + 1) + 1 := by
      simp only [List.length_cons]
      omega
    rw [hlen]
    simp only [List.cons_append, strSplitGo, List.append_eq]
    rw [if_neg]
    · have := ih rest (c :: acc) (fun x hx => hpre x (List.mem_cons_of_mem _ hx))
      rw [this]
      simp
    · intro hand
      have := hand.2
      simp [List.isPrefixOf, hc] at this

/-- Any package path beginning with a slash-free shared root followed by
`/` satisfies the claim's boundary condition: the root is the path's first
segment, so it is not nested beneath a service-private root. -/
lemma claimSharedPkg_of_leading_root (p : String) (pre : List Char)
    (hpre : ∀ c ∈ pre, (('/' : Char) == c) = false)
    (hshared : (⟨pre⟩ : String) ∈ claimSharedRoots)
    (hpriv : (⟨pre⟩ : String) ∉ claimPrivateRoots)
    (hp : (pre ++ ['/']).isPrefixOf p.data = true) :
    claimSharedPkg p = true := by
  obtain ⟨rest, hdata⟩ := List.isPrefixOf_iff_prefix.mp hp
  have hdata2 : p.data = pre ++ '/' :: rest := by
    rw [← hdata]
    simp
  have hlen2 : (pre ++ '/' :: rest).length = pre.length + rest.length + 1 := by
    simp only [List.length_append, List.length_cons]
    omega
  unfold claimSharedPkg strSplit
  rw [show ("/" : String).data = ['/'] from rfl, hdata2, hlen2,
    strSplitGoSlash pre rest [] hpre]
  simp only [List.reverse_nil, List.nil_append, List.map_cons]
  simp only [claimSharedScan]
  rw [if_neg hpriv, if_pos hshared]

/-- C6 counterexample.  The claim's condition classifies
`services/billing/pkg/util` as shared (it contains the shared root `pkg`
not nested beneath a service-private root), but `isCommonPackage` does
not: the source only recognizes a shared root as the leading path
segment. -/
theorem shared_root_in_middle_not_recognized :
    claimSharedPkg "services/billing/pkg/util" = true ∧
    isCommonPackage "services/billing/pkg/util" = false := by
  decide

/-- C6 as amended.  `isCommonPackage` classifies a package as shared
exactly when its path starts with one of the prefixes `pkg/`, `api/`,
`common/`, `shared/` or `lib/` — the shared root must be the leading
segment, so it is never nested beneath a service-private root (code-shared
implies the claim's condition), but a shared root strictly inside the
path is not recognized, and a top-level `api/<service>/...` package is
classified shared even when it belongs to one service. -/
theorem commonPackage_requires_leading_shared_root :
    (∀ p : String, isCommonPackage p =
      (strStarts p "pkg/" || (strStarts p "api/" || (strStarts p "common/" ||
        (strStarts p "shared/" || strStarts p "lib/"))))) ∧
    (∀ p : String, isCommonPackage p = true → claimSharedPkg p = true) ∧
    isCommonPackage "pkg/grace" = true ∧
    isCommonPackage "internal/serviceA/api/client" = false ∧
    claimSharedPkg "internal/serviceA/api/client" = false ∧
    isCommonPackage "api/serviceA/client" = true := by
  refine ⟨?_, ?_, by decide, by decide, by decide, by decide⟩
  · intro p
    simp [isCommonPackage, commonPrefixes, List.any_cons, List.any_nil]
  · intro p hp
    simp only [isCommonPackage, commonPrefixes, List.any_cons, List.any_nil,
      Bool.or_eq_true, Bool.or_false] at hp
    have hequiv : ∀ root : String, strStarts p root = true →
        root.data.isPrefixOf p.data = true := fun root h => h
    rcases hp with h | h | h | h | h
    · exact claimSharedPkg_of_leading_root p ['p', 'k', 'g']
        (by decide) (by decide) (by decide) (hequiv "pkg/" h)
    · exact claimSharedPkg_of_leading_root p ['a', 'p', 'i']
        (by decide) (by decide) (by decide) (hequiv "api/" h)
    · exact claimSharedPkg_of_leading_root p ['c', 'o', 'm', 'm', 'o', 'n']
        (by decide) (by decide) (by decide) (hequiv "common/" h)
    · exact claimSharedPkg_of_leading_root p ['s', 'h', 'a', 'r', 'e', 'd']
        (by decide) (by decide) (by decide) (hequiv "shared/" h)
    · exact claimSharedPkg_of_leading_root p ['l', 'i', 'b']
        (by decide) (by decide) (by decide) (hequiv "lib/" h)

/-- Witness for C6: the amended equivalence and the code-to-claim
implication applied at the real shared package `pkg/grace`. -/
theorem commonPackage_leading_root_witness :
    isCommonPackage "pkg/grace" =
      (strStarts "pkg/grace" "pkg/" || (strStarts "pkg/grace" "api/" ||
        (strStarts "pkg/grace" "common/" || (strStarts "pkg/grace" "shared/" ||
          strStarts "pkg/grace" "lib/")))) ∧
    (isCommonPackage "pkg/grace" = true ∧ claimSharedPkg "pkg/grace" = true) := by
  refine ⟨commonPackage_requires_leading_shared_root.1 "pkg/grace", by decide, ?_⟩
  exact commonPackage_requires_leading_shared_root.2.1 "pkg/grace" (by decide)

/-! ## Lemmas about import-graph reachability -/

/-- No package in the import graph has more import edges than the whole
graph. -/
lemma pkgImports_length_le (g : List GoPackage) (p : String) :
    (pkgImports g p).length ≤ totalImports g := by
  unfold pkgImports
  cases hfind : g.find? (fun q => q.path = p) with
  | none => exact Nat.zero_le _
  | some q =>
    have hq : q ∈ g := List.mem_of_find?_eq_some hfind
    exact List.single_le_sum (fun x _ => Nat.zero_le x) _
      (List.mem_map_of_mem (fun q => q.imports.length) hq)

/-- A path outside the workspace graph has no imports. -/
lemma pkgImports_eq_nil (g : List GoPackage) (p : String)
    (hp : p ∉ g.map GoPackage.path) : pkgImports g p = [] := by
  unfold pkgImports
  rw [List.find?_eq_none.mpr]
  intro q hq
  simp only [decide_eq_true_eq]
  intro hqp
  exact hp (by rw [← hqp]; exact List.mem_map_of_mem GoPackage.path hq)

/-- Soundness of the guarded traversal: starting from packages reachable
from `a`, every package it marks visited is reachable from `a`. -/
lemma importVisit_sound (g : List GoPackage) (a : String) :
    ∀ fuel wl vis,
      (∀ x ∈ wl, ImportTransits g a x) →
      (∀ x ∈ vis, ImportTransits g a x) →
      ∀ x ∈ importVisit g fuel wl vis, ImportTransits g a x := by
  intro fuel
  induction fuel with
  | zero =>
    intro wl vis _ hvis x hx
    simp only [importVisit] at hx
    exact hvis x hx
  | succ n ih =>
    intro wl vis hwl hvis x hx
    cases wl with
    | nil =>
      simp only [importVisit] at hx
      exact hvis x hx
    | cons p rest =>
      simp only [importVisit] at hx
      by_cases hp : p ∈ vis
      · rw [if_pos hp] at hx
        exact ih rest vis (fun y hy => hwl y (List.mem_cons_of_mem _ hy)) hvis x hx
      · rw [if_neg hp] at hx
        have hpa : ImportTransits g a p := hwl p (List.mem_cons_self _ _)
        apply ih _ _ ?_ ?_ x hx
        · intro y hy
          rcases List.mem_append.mp hy with hy | hy
          · exact Relation.ReflTransGen.tail hpa hy
          · exact hwl y (List.mem_cons_of_mem _ hy)
        · intro y hy
          rcases List.mem_cons.mp hy with rfl | hy
          · exact hpa
          · exact hvis y hy

/-- Completeness scaffolding for the guarded traversal: with the
invariant that every visited package's imports are visited or pending,
and enough fuel, the traversal keeps everything it has seen and ends
closed under the import relation. -/
lemma importVisit_complete (g : List GoPackage) :
    ∀ fuel wl vis,
      (∀ v ∈ vis, ∀ q ∈ pkgImports g v, q ∈ vis ∨ q ∈ wl) →
      ((g.map GoPackage.path).toFinset \ vis.toFinset).card *
          (totalImports g + 1) + wl.length < fuel →
      (∀ x ∈ vis, x ∈ importVisit g fuel wl vis) ∧
      (∀ x ∈ wl, x ∈ importVisit g fuel wl vis) ∧
      (∀ v ∈ importVisit g fuel wl vis, ∀ q ∈ pkgImports g v,
        q ∈ importVisit g fuel wl vis) := by
  intro fuel
  induction fuel using Nat.strong_induction_on with
  | _ fuel ih =>
    intro wl vis hinv hfuel
    match fuel, hfuel with
    | Nat.succ n, hfuel =>
      cases wl with
      | nil =>
        simp only [importVisit]
        refine ⟨fun x hx => hx, fun x hx => absurd hx (List.not_mem_nil x), ?_⟩
        intro v hv q hq
        rcases hinv v hv q hq with h | h
        · exact h
        · cases h
      | cons p rest =>
        simp only [importVisit]
        by_cases hp : p ∈ vis
        · rw [if_pos hp]
          have hinv' : ∀ v ∈ vis, ∀ q ∈ pkgImports g v, q ∈ vis ∨ q ∈ rest := by
            intro v hv q hq
            rcases hinv v hv q hq with h | h
            · exact Or.inl h
            · rcases List.mem_cons.mp h with rfl | h
              · exact Or.inl hp
              · exact Or.inr h
          obtain ⟨g1, g2, g3⟩ := ih n (Nat.lt_succ_self n) rest vis hinv'
            (by
              simp only [List.length_cons] at hfuel
              generalize ((g.map GoPackage.path).toFinset \ vis.toFinset).card *
                (totalImports g + 1) = A at hfuel ⊢
              omega)
          refine ⟨g1, ?_, g3⟩
          intro x hx
          rcases List.mem_cons.mp hx with rfl | hx
          · exact g1 x hp
          · exact g2 x hx
        · rw [if_neg hp]
          have hinv'' : ∀ v ∈ p :: vis, ∀ q ∈ pkgImports g v,
              q ∈ p :: vis ∨ q ∈ pkgImports g p ++ rest := by
            intro v hv q hq
            rcases List.mem_cons.mp hv with rfl | hv
            · exact Or.inr (List.mem_append_left _ hq)
            · rcases hinv v hv q hq with h | h
              · exact Or.inl (List.mem_cons_of_mem _ h)
              · rcases List.mem_cons.mp h with rfl | h
                · exact Or.inl (List.mem_cons_self _ _)
                · exact Or.inr (List.mem_append_right _ h)
          have hmeas : ((g.map GoPackage.path).toFinset \ (p :: vis).toFinset).card *
              (totalImports g + 1) + (pkgImports g p ++ rest).length < n := by
            by_cases hpg : p ∈ (g.map GoPackage.path).toFinset
            · have hmem : p ∈ (g.map GoPackage.path).toFinset \ vis.toFinset := by
                rw [Finset.mem_sdiff]
                refine ⟨hpg, ?_⟩
                simp only [List.mem_toFinset]
                exact hp
              have hcard : ((g.map GoPackage.path).toFinset \ (p :: vis).toFinset).card + 1 =
                  ((g.map GoPackage.path).toFinset \ vis.toFinset).card := by
                rw [List.toFinset_cons, Finset.sdiff_insert,
                  Finset.card_erase_of_mem hmem]
                have hpos : 0 < ((g.map GoPackage.path).toFinset \ vis.toFinset).card :=
                  Finset.card_pos.mpr ⟨p, hmem⟩
                omega
              have hil := pkgImports_length_le g p
              simp only [List.length_cons, List.length_append] at hfuel ⊢
              generalize hA : ((g.map GoPackage.path).toFinset \ vis.toFinset).card =
                A at hfuel hcard
              generalize hB : ((g.map GoPackage.path).toFinset \
                (p :: vis).toFinset).card = B at hcard ⊢
              nlinarith
            · have hnil : pkgImports g p = [] :=
                pkgImports_eq_nil g p (by rwa [← List.mem_toFinset])
              have hcard : ((g.map GoPackage.path).toFinset \ (p :: vis).toFinset) =
                  ((g.map GoPackage.path).toFinset \ vis.toFinset) := by
                rw [List.toFinset_cons, Finset.sdiff_insert,
                  Finset.erase_eq_of_not_mem]
                intro hc
                exact hpg (Finset.mem_sdiff.mp hc).1
              rw [hnil, hcard]
              simp only [List.nil_append, List.length_cons] at hfuel ⊢
              generalize ((g.map GoPackage.path).toFinset \ vis.toFinset).card *
                (totalImports g + 1) = A at hfuel ⊢
              omega
          obtain ⟨g1, g2, g3⟩ := ih n (Nat.lt_succ_self n)
            (pkgImports g p ++ rest) (p :: vis) hinv'' hmeas
          refine ⟨fun x hx => g1 x (List.mem_cons_of_mem _ hx), ?_, g3⟩
          intro x hx
          rcases List.mem_cons.mp hx with rfl | hx
          · exact g1 x (List.mem_cons_self _ _)
          · exact g2 x (List.mem_append_right _ hx)

/-- The guarded traversal decides transitive import reachability. -/
lemma canReachPkg_iff (g : List GoPackage) (a b : String) :
    canReachPkg g a b = true ↔ ImportTransits g a b := by
  constructor
  · intro h
    unfold canReachPkg at h
    rw [decide_eq_true_eq] at h
    exact importVisit_sound g a (importFuel g) [a] []
      (by
        intro x hx
        rcases List.mem_singleton.mp hx with rfl
        exact Relation.ReflTransGen.refl)
      (fun x hx => absurd hx (List.not_mem_nil x))
      b h
  · intro h
    unfold canReachPkg
    rw [decide_eq_true_eq]
    obtain ⟨g1, g2, g3⟩ := importVisit_complete g (importFuel g) [a] []
      (fun v hv => absurd hv (List.not_mem_nil v))
      (by
        have hc : ((g.map GoPackage.path).toFinset \
            ([] : List String).toFinset).card ≤ g.length := by
          calc ((g.map GoPackage.path).toFinset \
              ([] : List String).toFinset).card
              ≤ (g.map GoPackage.path).toFinset.card :=
                Finset.card_le_card (Finset.sdiff_subset)
            _ ≤ (g.map GoPackage.path).length := List.toFinset_card_le _
            _ = g.length := List.length_map _ _
        unfold importFuel
        have := Nat.mul_le_mul_right (totalImports g + 1) hc
        simp only [List.length_singleton]
        omega)
    have ha : a ∈ importVisit g (importFuel g) [a] [] :=
      g2 a (List.mem_singleton_self a)
    unfold ImportTransits at h
    induction h with
    | refl => exact ha
    | tail hab hedge ihh => exact g3 _ ihh _ hedge

/-- C7.  `TraceToMain` on an import symbol succeeds only for anonymous
(blank) imports: a non-blank import is rejected with the exact error
`only blank imports (_ import) are supported for tracing` and yields zero
call paths, while a blank import reports the main packages transitively
importing the imported package — the entry packages the modelled guarded
traversal marks are exactly those that transitively import it. -/
theorem import_trace_only_blank :
    (∀ (g : List GoPackage) (fnT refT : GoSymbol → Except String (List CallPath))
        (sym : GoSymbol) (ie : ImportExtra),
      sym.kind = SymKind.Import → sym.extra = some ie → ie.importAs ≠ "_" →
      directTraceToMain g fnT refT sym =
        Except.error "only blank imports (_ import) are supported for tracing") ∧
    (∀ (g : List GoPackage) (fnT refT : GoSymbol → Except String (List CallPath))
        (sym : GoSymbol) (ie : ImportExtra),
      sym.kind = SymKind.Import → sym.extra = some ie → ie.importAs = "_" →
      directTraceToMain g fnT refT sym =
        Except.ok (findMainPackagesImporting g ie.path)) ∧
    (∀ (g : List GoPackage) (target : String) (q : GoPackage),
      q ∈ g.filter (fun q =>
          q.pkgName = "main" ∧ canReachPkg g q.path target = true) ↔
        (q ∈ g ∧ q.pkgName = "main" ∧ ImportTransits g q.path target)) := by
  refine ⟨?_, ?_, ?_⟩
  · intro g fnT refT sym ie hkind hextra halias
    simp only [directTraceToMain, hkind, hextra]
    rw [if_neg]
    simp only [ImportExtra.isBlankImport]
    intro hcontra
    rw [decide_eq_true_eq] at hcontra
    exact halias hcontra
  · intro g fnT refT sym ie hkind hextra halias
    simp only [directTraceToMain, hkind, hextra]
    rw [if_pos]
    simp only [ImportExtra.isBlankImport]
    rw [decide_eq_true_eq]
    exact halias
  · intro g target q
    rw [List.mem_filter]
    constructor
    · intro ⟨hq, hcond⟩
      rw [decide_eq_true_eq] at hcond
      exact ⟨hq, hcond.1, (canReachPkg_iff g q.path target).mp hcond.2⟩
    · intro ⟨hq, hmain, hreach⟩
      refine ⟨hq, ?_⟩
      rw [decide_eq_true_eq]
      exact ⟨hmain, (canReachPkg_iff g q.path target).mpr hreach⟩

/-- The import graph of spec §8 Scenario C: `internal/logger` is imported
only by `cmd/api-server`. -/
def loggerGraph : List GoPackage :=
  [{ path := "example.com/x/cmd/api-server", pkgName := "main",
     imports := ["example.com/x/internal/logger"] },
   { path := "example.com/x/internal/logger", pkgName := "logger",
     imports := [] }]

/-- The blank-import symbol `_ "example.com/x/internal/logger"`. -/
def blankLoggerSymbol : GoSymbol :=
  { name := "example.com/x/internal/logger", kind := SymKind.Import,
    posFile := "cmd/api-server/main.go", posLine := 5, posColumn := 2,
    packagePath := "example.com/x/cmd/api-server",
    extra := some { importAs := "_", path := "example.com/x/internal/logger" } }

/-- The named-import symbol `log "example.com/x/internal/logger"`. -/
def namedLoggerSymbol : GoSymbol :=
  { name := "example.com/x/internal/logger", kind := SymKind.Import,
    posFile := "cmd/api-server/main.go", posLine := 5, posColumn := 2,
    packagePath := "example.com/x/cmd/api-server",
    extra := some { importAs := "log", path := "example.com/x/internal/logger" } }

/-- Witness for C7: the named import is rejected with the exact error
message, the blank import is traced, and on the Scenario C graph the
reported binary is exactly `api-server`. -/
theorem import_trace_only_blank_witness :
    directTraceToMain loggerGraph (traceFnFromResult none) (traceFnFromResult none)
        namedLoggerSymbol =
      Except.error "only blank imports (_ import) are supported for tracing" ∧
    directTraceToMain loggerGraph (traceFnFromResult none) (traceFnFromResult none)
        blankLoggerSymbol =
      Except.ok (findMainPackagesImporting loggerGraph
        "example.com/x/internal/logger") ∧
    (findMainPackagesImporting loggerGraph "example.com/x/internal/logger").map
      CallPath.binaryName = ["api-server"] := by
  refine ⟨?_, ?_, by decide⟩
  · exact import_trace_only_blank.1 loggerGraph _ _ namedLoggerSymbol
      { importAs := "log", path := "example.com/x/internal/logger" }
      (by decide) (by decide) (by decide)
  · exact import_trace_only_blank.2.1 loggerGraph _ _ blankLoggerSymbol
      { importAs := "_", path := "example.com/x/internal/logger" }
      (by decide) (by decide) (by decide)

/-! ## The two-tier cache contract -/

/-- C9.  The two-tier trace cache: `Set` then `Get` returns the stored
value; after a `Set`, the cached trace returns the value without invoking
the provider (compute count 0); lookup goes persistent tier, then
in-process tier, then compute, writing a computed result through both
tiers; and a corrupt persistent entry is treated as a miss. -/
theorem cache_set_get_and_lookup_order :
    (∀ (st : TraceCache) (k : String) (v : List CallPath),
      cacheGet (cacheSet st k v) k = some v) ∧
    (∀ (st : TraceCache) (k : String) (v : List CallPath)
        (compute : Unit → List CallPath),
      (cachedTraceToMain (cacheSet st k v) k compute).1 = v ∧
      (cachedTraceToMain (cacheSet st k v) k compute).2.2 = 0) ∧
    (∀ (st : TraceCache) (k : String) (v : List CallPath)
        (compute : Unit → List CallPath),
      assocGet st.disk k = some (marshalPaths v) →
      cachedTraceToMain st k compute =
        (v, { st with mem := assocSet st.mem k v }, 0)) ∧
    (∀ (st : TraceCache) (k : String) (v : List CallPath)
        (compute : Unit → List CallPath),
      assocGet st.disk k = none → assocGet st.mem k = some v →
      cachedTraceToMain st k compute = (v, st, 0)) ∧
    (∀ (st : TraceCache) (k : String) (tag : Nat)
        (compute : Unit → List CallPath),
      assocGet st.disk k = some (CacheBlob.corrupt tag) →
      cachedTraceToMain st k compute = cacheMemOrCompute st k compute) ∧
    (∀ (st : TraceCache) (k : String) (compute : Unit → List CallPath),
      assocGet st.disk k = none → assocGet st.mem k = none →
      cachedTraceToMain st k compute =
        (compute (),
          { mem := assocSet st.mem k (compute ()),
            disk := assocSet st.disk k (marshalPaths (compute ())) }, 1) ∧
      cacheGet (cachedTraceToMain st k compute).2.1 k = some (compute ())) := by
  refine ⟨?_, ?_, ?_, ?_, ?_, ?_⟩
  · intro st k v
    simp [cacheGet, cacheSet, assocGet, assocSet, marshalPaths, unmarshalPaths]
  · intro st k v compute
    constructor
    · simp [cachedTraceToMain, cacheSet, assocGet, assocSet, marshalPaths,
        unmarshalPaths]
    · simp [cachedTraceToMain, cacheSet, assocGet, assocSet, marshalPaths,
        unmarshalPaths]
  · intro st k v compute hdisk
    simp [cachedTraceToMain, hdisk, marshalPaths, unmarshalPaths]
  · intro st k v compute hdisk hmem
    simp [cachedTraceToMain, cacheMemOrCompute, hdisk, hmem]
  · intro st k tag compute hdisk
    simp [cachedTraceToMain, hdisk, unmarshalPaths]
  · intro st k compute hdisk hmem
    have hres : cachedTraceToMain st k compute =
        (compute (),
          { mem := assocSet st.mem k (compute ()),
            disk := assocSet st.disk k (marshalPaths (compute ())) }, 1) := by
      simp [cachedTraceToMain, cacheMemOrCompute, hdisk, hmem]
    refine ⟨hres, ?_⟩
    rw [hres]
    simp [cacheGet, assocGet, assocSet, marshalPaths, unmarshalPaths,
      List.find?_cons]

/-- A concrete cache whose persistent tier holds a corrupt entry for the
key its in-process tier knows. -/
def corruptTierCache : TraceCache :=
  { mem := [("k2", [cpSvcB])], disk := [("k2", CacheBlob.corrupt 7)] }

/-- Witness for C9: the cache contract evaluated on concrete caches, one
freshly `Set` and one holding a corrupt persistent entry. -/
theorem cache_set_get_witness :
    cacheGet (cacheSet { mem := [], disk := [] } "k1" [cpSvcA]) "k1" =
      some [cpSvcA] ∧
    (cachedTraceToMain (cacheSet { mem := [], disk := [] } "k1" [cpSvcA]) "k1"
        (fun _ => [cpSvcB])).1 = [cpSvcA] ∧
    (assocGet corruptTierCache.disk "k2" = some (CacheBlob.corrupt 7) ∧
      cachedTraceToMain corruptTierCache "k2" (fun _ => [cpSvcA]) =
        cacheMemOrCompute corruptTierCache "k2" (fun _ => [cpSvcA])) := by
  refine ⟨?_, ?_, by decide, ?_⟩
  · exact cache_set_get_and_lookup_order.1 { mem := [], disk := [] } "k1" [cpSvcA]
  · exact (cache_set_get_and_lookup_order.2.1 { mem := [], disk := [] } "k1"
      [cpSvcA] (fun _ => [cpSvcB])).1
  · exact cache_set_get_and_lookup_order.2.2.2.2.1
      corruptTierCache "k2" 7 (fun _ => [cpSvcA]) (by decide)

end Ripples
